import Mathlib

/-
  Verification development for the lelwel Rust backend
  (src/src/backend/rust.rs): the code-synthesis stage of a parser
  generator.  The file contains

  * a model of interned symbols and of `BTreeSet<Symbol>` iteration
    (ordered, duplicate-free traversal) together with the set renderer
    (`Generator for BTreeSet<Symbol>`, rust.rs:41-58);
  * a model of the `Indent` helper (rust.rs:8-34);
  * the grammar IR (`Element`, `Regex`, `Module`) as consumed by the
    backend, with the precomputed `first`/`follow`/`predict`/`cancel`
    annotation sets attached to every node;
  * the emitter: every `write_all` of `output_element`/`output_regex`/
    `output_error_handler` and of the section emitters is mirrored by
    one `Chunk` carrying the exact text written, and the whole
    translation unit is assembled by `createParserStr` exactly as
    `create_parser` does (rust.rs:63-84);
  * runtime models of the emitted code templates (error-handler resync
    loop, `Plus` loop, `Or` dispatch, depth guard, top-level entry),
    each definition transcribing the control flow of the corresponding
    emitted Rust text;
  * the theorems settling the specification claims.
-/

set_option maxHeartbeats 1000000

namespace Lelwel

/-- Interned grammar symbols.  The backend identifies a symbol with an
interned name and orders symbols by a fixed total order that is stable
across runs; the model uses the name itself with the lexicographic
order as that total order. -/
abbrev Sym := String

/-- Iteration order of a `BTreeSet<Symbol>` whose contents are given by
the list `s`: the elements without duplicates, in ascending symbol
order.  All reads of an annotation set in the backend go through this
traversal. -/
def btree (s : List Sym) : List Sym :=
  List.insertionSort (fun a b => a ≤ b) s.dedup

theorem mem_btree {x : Sym} {s : List Sym} : x ∈ btree s ↔ x ∈ s := by
  unfold btree
  rw [List.mem_insertionSort, List.mem_dedup]

theorem btree_sorted (s : List Sym) :
    List.Sorted (fun a b => a ≤ b) (btree s) :=
  List.sorted_insertionSort _ _

theorem btree_nodup (s : List Sym) : (btree s).Nodup :=
  ((List.perm_insertionSort _ _).nodup_iff).mpr s.nodup_dedup

theorem btree_eq_of_mem_iff {s t : List Sym} (h : ∀ x, x ∈ s ↔ x ∈ t) :
    btree s = btree t := by
  apply List.eq_of_perm_of_sorted ?_ (btree_sorted s) (btree_sorted t)
  apply List.perm_of_nodup_nodup_toFinset_eq (btree_nodup s) (btree_nodup t)
  ext x
  simp only [List.mem_toFinset, mem_btree]
  exact h x

theorem btree_idem (s : List Sym) : btree (btree s) = btree s :=
  btree_eq_of_mem_iff (fun _ => mem_btree)

theorem btree_nil : btree ([] : List Sym) = [] := rfl

theorem btree_eq_nil_iff {s : List Sym} : btree s = [] ↔ s = [] := by
  constructor
  · intro h
    cases s with
    | nil => rfl
    | cons a t =>
      exact absurd (mem_btree.mpr (List.mem_cons_self a t)) (by simp [h])
  · intro h; subst h; rfl

/-- Mirror of `"    ".repeat(level)` (rust.rs:45,53 and the `Indent`
helper, rust.rs:19). -/
def pad (level : Nat) : String :=
  String.join (List.replicate level "    ")

/-- Mirror of `Generator::pattern` for `BTreeSet<Symbol>`
(rust.rs:42-49): a nonempty set becomes the per-symbol
`pattern_<sym>!()` invocations joined by a newline, padding and `| `;
the empty set becomes the end-of-input pattern. -/
def setPattern (s : List Sym) (level : Nat) : String :=
  let b := btree s
  if b.isEmpty = false then
    String.intercalate ("\n" ++ pad level ++ "| ")
      (b.map (fun n => "pattern_" ++ n ++ "!()"))
  else "pattern_EOF!()"

/-- Mirror of `Generator::error` for `BTreeSet<Symbol>`
(rust.rs:50-57): a nonempty set becomes the per-symbol
`default_<sym>!()` invocations joined by `,`, newline and padding; the
empty set becomes the end-of-input default. -/
def setError (s : List Sym) (level : Nat) : String :=
  let b := btree s
  if b.isEmpty = false then
    String.intercalate (",\n" ++ pad level)
      (b.map (fun n => "default_" ++ n ++ "!()"))
  else "default_EOF!()"

/-- The line decomposition used by Rust `str::lines()`: split at every
newline, with a terminal newline not contributing an empty final
line. -/
def rustLines (s : String) : List String :=
  if s = "" then []
  else if s.endsWith "\n" then (s.splitOn "\n").dropLast
  else s.splitOn "\n"

/-- Mirror of `Indent::indent` (rust.rs:12-28): every nonempty line is
re-emitted with `level` four-space indents and a newline; if the input
did not end in a newline the final newline is popped again. -/
def indentStr (s : String) (level : Nat) : String :=
  let body :=
    String.join
      (((rustLines s).filter (fun l => l != "")).map
        (fun l => pad level ++ l ++ "\n"))
  if s.endsWith "\n" then body else body.dropRight 1

theorem setPattern_btree (s : List Sym) (level : Nat) :
    setPattern (btree s) level = setPattern s level := by
  simp [setPattern, btree_idem]

theorem setError_btree (s : List Sym) (level : Nat) :
    setError (btree s) level = setError s level := by
  simp [setError, btree_idem]

/-- The precomputed annotation sets attached to every `Regex` node by
the external analysis pass (spec section 6): first, follow, predict and
cancel, each a `BTreeSet<Symbol>` given here by a representing list. -/
structure Ann where
  first : List Sym
  follow : List Sym
  predict : List Sym
  cancel : List Sym
deriving DecidableEq, Repr

/-- The `Regex` IR consumed by `output_regex` (rust.rs:455-745).  The
`Id` variant is split according to the element its name resolves to
(`elem.get().unwrap()` in the source resolves to a `Rule` or a
`Token`); `Action`, `ErrorHandler` and `Predicate` leaves carry the
referenced element code when the reference is resolved, `none` when it
is unresolved; `pos` stands for `regex.range().start`. -/
inductive Regex where
  | idRule (a : Ann) (pos : Nat) (name rulePars : String)
  | idToken (a : Ann) (pos : Nat) (name : String)
  | strTok (a : Ann) (pos : Nat) (tokName : String)
  | concat (a : Ann) (pos : Nat) (ops : List Regex) (err : Option Regex)
  | orRe (a : Ann) (pos : Nat) (ops : List Regex) (err : Option Regex)
  | star (a : Ann) (pos : Nat) (op : Regex)
  | plus (a : Ann) (pos : Nat) (op : Regex)
  | optRe (a : Ann) (pos : Nat) (op : Regex)
  | paren (a : Ann) (pos : Nat) (op : Regex)
  | action (a : Ann) (pos : Nat) (val : Nat) (code : Option String)
  | errHandler (a : Ann) (pos : Nat) (val : Nat) (code : Option String)
  | predElem (a : Ann) (pos : Nat) (code : Option String)

def Regex.ann : Regex → Ann
  | .idRule a .. => a
  | .idToken a .. => a
  | .strTok a .. => a
  | .concat a .. => a
  | .orRe a .. => a
  | .star a .. => a
  | .plus a .. => a
  | .optRe a .. => a
  | .paren a .. => a
  | .action a .. => a
  | .errHandler a .. => a
  | .predElem a .. => a

def Regex.first (r : Regex) : List Sym := r.ann.first

def Regex.follow (r : Regex) : List Sym := r.ann.follow

def Regex.predictSet (r : Regex) : List Sym := r.ann.predict

def Regex.cancel (r : Regex) : List Sym := r.ann.cancel

/-- Discriminator for the `if let RegexKind::ErrorHandler { .. } =
op.kind` checks (rust.rs:508, 543). -/
def Regex.isEH : Regex → Bool
  | .errHandler .. => true
  | _ => false

/-- The `Element` variants of the grammar IR (spec section 3).  Only
the pieces the backend reads are kept: `Start`/`Rule` carry their
attached semantic-action code (already resolved to the `Action`
element's code, or `none`), a `Token` carries name, payload type and
display symbol. -/
inductive ElementKind where
  | start (ret pars : String) (regex : Regex) (action : Option String)
  | rule (name ret pars : String) (regex : Regex) (action : Option String)
  | token (name ty sym : String)
  | actionElem (code : String)
  | errHandlerElem (code : String)
  | predicateElem (code : String)
  | preambleElem (code : String)
  | parametersElem (code : String)
  | errorCodeElem (code : String)
  | limitElem (depth : Nat)

/-- An IR element with its externally computed liveness flag
(`element.attr.used`, rust.rs:282). -/
structure Element where
  used : Bool
  kind : ElementKind

/-- The module aggregate: the ordered element sequence plus the
singleton references the backend reads (`module.preamble`,
`module.parameters`, `module.error`, `module.limit`), modelled by the
code they resolve to. -/
structure Module where
  elements : List Element
  preamble : Option String
  parameters : Option String
  error : Option String
  limit : Option Nat

/-- Mirror of `get_predicate` (rust.rs:381-400): a `Concat` whose first
operand is a resolved `Predicate` yields a match guard from the
predicate code; `Paren` looks through; everything else yields no
guard.  (The source indexes `ops[0]`; the IR guarantees a `Concat` is
nonempty, and an empty operand list is mapped to no guard here.) -/
def getPredicate : Regex → String
  | .concat _ _ ops _ =>
    match ops with
    | .predElem _ _ (some code) :: _ => " if " ++ code.trim
    | _ => ""
  | .paren _ _ op => getPredicate op
  | _ => ""

/-- Mirror of `par_to_arg` (rust.rs:1030-1039): strip the type of each
`name: Type` parameter, keeping the argument names. -/
def parToArg (pars : String) : String :=
  String.intercalate ","
    (((pars.splitOn ":").dropLast).map
      (fun s => (((s.splitOn ",").getLast?).getD "")))

/-- Argument-list adjustment for a rule call (rust.rs:464-471). -/
def idRuleArgs (commonArgs rulePars : String) : String :=
  let args := parToArg rulePars
  if args = "" then "" else if commonArgs = "" then args else ", " ++ args

def idRuleText (name rulePars commonArgs : String) : String :=
  "let r#" ++ name ++ " = Self::r#" ++ name ++ "(depth + 1, input"
    ++ commonArgs ++ idRuleArgs commonArgs rulePars ++ ")?;\n"

def consumeText (name : String) : String :=
  "let r#" ++ name ++ " = consume_" ++ name ++ "!(input);\n"

/-- Text of the follow-check emitted for an `ErrorHandler` operand of a
`Concat` (rust.rs:509-524). -/
def concatEHText (followSet : List Sym) : String :=
  "match input.current().kind \x7b\n    " ++ setPattern followSet 1
    ++ " => \x7b\n        Ok(())\n    \x7d\n    _ => \x7b\n        return err!["
    ++ setError followSet 5 ++ "]\n    \x7d\n\x7d\n"

/-- Opening text of `output_error_handler` (rust.rs:408-423). -/
def ehOpenText (followSet : List Sym) : String :=
  "\x7d)().or_else(|error_code| \x7b\n    // error handling\n    if input.current().kind == TokenKind::EOF \x7b\n        return Err(error_code);\n    \x7d\n    let error_range = input.current().range;\n    loop \x7b\n        match input.current().kind \x7b\n            "
    ++ setPattern followSet 3 ++ " => \x7b\n"

def ehOkText : String :=
  "                return Ok(())\n            \x7d\n"

def ehCancelText (cancelSet : List Sym) : String :=
  "            " ++ setPattern cancelSet 3
    ++ " => \x7b\n                return Err(error_code)\n            \x7d\n"

def ehTailText : String :=
  "            _ => \x7b\n                input.advance();\n            \x7d\n       \x7d\n   \x7d\n\x7d)?;\n"

def orDefaultText (predictSet : List Sym) : String :=
  "    _ => \x7b\n        return err![" ++ setError predictSet 5
    ++ "]\n    \x7d\n\x7d\n"

def starOpenText (opFirst : List Sym) (predStr : String) : String :=
  "loop \x7b\n    match input.current().kind \x7b\n        "
    ++ setPattern opFirst 2 ++ predStr ++ " => \x7b\n"

def starCloseText (followSet predictSet : List Sym) : String :=
  "        \x7d\n        " ++ setPattern followSet 2
    ++ " => break,\n        _ => \x7b\n            return err!["
    ++ setError predictSet 6 ++ "]\n        \x7d\n    \x7d\n\x7d\n"

def plusOpenText (opFirst : List Sym) (predStr : String) : String :=
  "let mut is_first = true;\nloop \x7b\n    match input.current().kind \x7b\n        "
    ++ setPattern opFirst 2 ++ predStr ++ " => \x7b\n"

def plusCloseText (followSet firstSet : List Sym) : String :=
  "        \x7d\n        " ++ setPattern followSet 2
    ++ " if !is_first => break,\n        _ if is_first => \x7b\n            return err!["
    ++ setError firstSet 6
    ++ "]\n        \x7d\n        _ => \x7b\n            return err!["
    ++ setError firstSet 6 ++ ",\n                        "
    ++ setError followSet 6
    ++ "]\n        \x7d\n    \x7d\n    is_first = false;\n\x7d\n"

/-- Binding-name extraction for `Option` operands (rust.rs:642-652). -/
def optBindName : Regex → String
  | .idRule _ _ name _ => name
  | .idToken _ _ name => name
  | .strTok _ _ tokName => tokName
  | _ => ""

def optOpenText (bind : String) (opFirst : List Sym) (predStr : String) :
    String :=
  (if bind = "" then "" else "let r#" ++ bind ++ " = ")
    ++ "match input.current().kind \x7b\n    " ++ setPattern opFirst 1
    ++ predStr ++ " => \x7b\n"

def optCloseText (followSet predictSet : List Sym) (bind : String) :
    String :=
  "    \x7d\n    " ++ setPattern followSet 1 ++ " => "
    ++ (if bind = "" then "\x7b\x7d" else "None,")
    ++ "\n    _ => \x7b\n        return err![" ++ setError predictSet 5
    ++ "]\n    \x7d\n\x7d" ++ (if bind = "" then "" else ";") ++ "\n"

/-- Single-line action code is trimmed and re-indented before splicing
(rust.rs:698-704). -/
def adjustCode (code : String) : String :=
  if code.data.contains (Char.ofNat 10) then code else "    " ++ code.trim

/-- The `todo!` placeholder text for an unresolved `Action` or
`ErrorHandler` reference (rust.rs:705-709, 730-734); `tag` is
`"semantic action"` or `"error handler"`. -/
def todoCodeText (tag : String) (val pos : Nat) : String :=
  "    todo!(\"" ++ tag ++ " " ++ toString val ++ " at " ++ toString pos
    ++ "\");\n"

/-- The full pre-indentation text written for an action or handler
splice (rust.rs:711-715, 736-740). -/
def spliceText (tag : String) (val : Nat) (code : String) : String :=
  "    // " ++ tag ++ " " ++ toString val ++ "\n" ++ code ++ "\n"

/-- One `Chunk` per `write_all` call of the routine emitters.  Each
chunk carries the exact text written; the non-`frag` constructors
additionally record what the write was, so that structural claims
(which routines exist, where the depth guard sits, what an action
splice produced) can be stated. -/
inductive Chunk where
  | header (isStart : Bool) (name : String) (text : String)
  | checkLimit (text : String)
  | actionCode (val : Nat) (code : String) (text : String)
  | todoAction (val : Nat) (pos : Nat) (text : String)
  | handlerCode (val : Nat) (code : String) (text : String)
  | todoHandler (val : Nat) (pos : Nat) (text : String)
  | frag (text : String)
  | footer (text : String)

def Chunk.render : Chunk → String
  | .header _ _ t => t
  | .checkLimit t => t
  | .actionCode _ _ t => t
  | .todoAction _ _ t => t
  | .handlerCode _ _ t => t
  | .todoHandler _ _ t => t
  | .frag t => t
  | .footer t => t

/-- Assembly of `output_error_handler` (rust.rs:402-453) around the
already-emitted chunks of the error regex: the `or_else` boundary with
(1) the immediate end-of-input re-raise, (2) the resync loop with the
`follow` arm running the handler body and returning success, (3) the
`cancel` arm re-raising when the cancel set is nonempty, and (4) the
default arm skipping one token. -/
def ehWrap (followSet cancelSet : List Sym) (body : List Chunk)
    (level : Nat) : List Chunk :=
  [Chunk.frag (indentStr (ehOpenText followSet) (level - 1))] ++ body
    ++ [Chunk.frag (indentStr ehOkText (level - 1))]
    ++ (if (btree cancelSet).isEmpty then []
        else [Chunk.frag (indentStr (ehCancelText cancelSet) (level - 1))])
    ++ [Chunk.frag (indentStr ehTailText (level - 1))]

mutual

/-- Mirror of `output_regex` (rust.rs:455-745): one chunk per
`write_all`, in emission order. -/
def outputRegexChunks (r : Regex) (commonArgs : String) (level : Nat) :
    List Chunk :=
  match r with
  | .idRule _ _ name rulePars =>
    [Chunk.frag (indentStr (idRuleText name rulePars commonArgs) level)]
  | .idToken _ _ name =>
    [Chunk.frag (indentStr (consumeText name) level)]
  | .strTok _ _ tokName =>
    [Chunk.frag (indentStr (consumeText tokName) level)]
  | .concat _ _ ops err =>
    match err with
    | some e =>
      [Chunk.frag (indentStr "(|| \x7b\n" level)]
        ++ concatOpsChunks ops commonArgs (level + 1)
        ++ ehWrap e.follow e.cancel
            (outputRegexChunks e commonArgs (level + 1 + 3)) (level + 1)
    | none => concatOpsChunks ops commonArgs level
  | .orRe a _ ops err =>
    match err with
    | some e =>
      [Chunk.frag (indentStr "(|| \x7b\n" level)]
        ++ [Chunk.frag
            (indentStr "match input.current().kind \x7b\n" (level + 1))]
        ++ orOpsChunks ops true commonArgs (level + 1)
        ++ [Chunk.frag (indentStr (orDefaultText a.predict) (level + 1))]
        ++ ehWrap e.follow e.cancel
            (outputRegexChunks e commonArgs (level + 1 + 3)) (level + 1)
    | none =>
      [Chunk.frag (indentStr "match input.current().kind \x7b\n" level)]
        ++ orOpsChunks ops false commonArgs level
        ++ [Chunk.frag (indentStr (orDefaultText a.predict) level)]
  | .star a _ op =>
    [Chunk.frag (indentStr (starOpenText op.first (getPredicate op)) level)]
      ++ outputRegexChunks op commonArgs (level + 3)
      ++ [Chunk.frag (indentStr (starCloseText a.follow a.predict) level)]
  | .plus a _ op =>
    [Chunk.frag (indentStr (plusOpenText op.first (getPredicate op)) level)]
      ++ outputRegexChunks op commonArgs (level + 3)
      ++ [Chunk.frag (indentStr (plusCloseText a.follow a.first) level)]
  | .optRe a _ op =>
    [Chunk.frag
      (indentStr (optOpenText (optBindName op) op.first (getPredicate op))
        level)]
      ++ outputRegexChunks op commonArgs (level + 2)
      ++ (if optBindName op = "" then []
          else [Chunk.frag
                 (indentStr ("Some(" ++ optBindName op ++ ")\n")
                   (level + 2))])
      ++ [Chunk.frag
           (indentStr (optCloseText a.follow a.predict (optBindName op))
             level)]
  | .paren _ _ op => outputRegexChunks op commonArgs level
  | .action _ pos val code =>
    match code with
    | some c =>
      [Chunk.actionCode val c
        (indentStr (spliceText "semantic action" val (adjustCode c))
          (level - 1))]
    | none =>
      [Chunk.todoAction val pos
        (indentStr
          (spliceText "semantic action" val
            (todoCodeText "semantic action" val pos)) (level - 1))]
  | .errHandler _ pos val code =>
    match code with
    | some c =>
      [Chunk.handlerCode val c
        (indentStr (spliceText "error handler" val (adjustCode c))
          (level - 1))]
    | none =>
      [Chunk.todoHandler val pos
        (indentStr
          (spliceText "error handler" val
            (todoCodeText "error handler" val pos)) (level - 1))]
  | .predElem _ _ _ => []

/-- The operand loop of the `Concat` case (rust.rs:507-528): an
`ErrorHandler` operand emits the follow check, everything else
recurses. -/
def concatOpsChunks (ops : List Regex) (commonArgs : String)
    (level : Nat) : List Chunk :=
  match ops with
  | [] => []
  | op :: rest =>
    (if op.isEH then
       [Chunk.frag (indentStr (concatEHText op.follow) level)]
     else outputRegexChunks op commonArgs level)
      ++ concatOpsChunks rest commonArgs level

/-- The branch loop of the `Or` case (rust.rs:541-560): an
`ErrorHandler` member is skipped entirely; every other branch emits its
predict-pattern arm (with the branch predicate as guard), its body, a
success marker when an error handler is attached, and the arm
closer. -/
def orOpsChunks (ops : List Regex) (hasError : Bool)
    (commonArgs : String) (level : Nat) : List Chunk :=
  match ops with
  | [] => []
  | op :: rest =>
    (if op.isEH then []
     else
       [Chunk.frag
         (indentStr
           (setPattern op.predictSet 0 ++ getPredicate op ++ " => \x7b\n")
           (level + 1))]
         ++ outputRegexChunks op commonArgs (level + 2)
         ++ (if hasError then
               [Chunk.frag (indentStr "Ok(())\n" (level + 2))]
             else [])
         ++ [Chunk.frag (indentStr "\x7d\n" (level + 1))])
      ++ orOpsChunks rest hasError commonArgs level

end

/-- Routine header text for `Start` and `Rule` elements
(rust.rs:302-308, 346-352). -/
def elementHeaderText (isStart : Bool) (name commonPars pars ret
    errorType : String) : String :=
  let parsA := if pars = "" then "" else ", " ++ pars
  let retA := if ret = "" then "()" else ret
  "    fn " ++ (if isStart then "start" else "r#" ++ name)
    ++ "<Input: TokenStream>(depth: u16, input: &mut Input" ++ commonPars
    ++ parsA ++ ") -> Result<" ++ retA ++ ", " ++ errorType
    ++ "> \x7b\n"

/-- Mirror of `output_element` (rust.rs:275-379): an unused element
emits nothing; a used `Start` emits header, optional rule action, body
and footer; a used `Rule` emits header, the `check_limit!` depth guard,
optional rule action, body and footer; all other element kinds emit
nothing here. -/
def outputElementChunks (e : Element) (commonPars commonArgs
    errorType : String) : List Chunk :=
  if e.used = false then []
  else
    match e.kind with
    | .start ret pars regex act =>
      [Chunk.header true "start"
        (elementHeaderText true "start" commonPars pars ret errorType)]
        ++ (match act with
            | some code =>
              [Chunk.actionCode 0 code
                (indentStr (spliceText "semantic action" 0
                  (adjustCode code)) 1)]
            | none => [])
        ++ outputRegexChunks regex commonArgs 2
        ++ [Chunk.footer "    \x7d\n"]
    | .rule name ret pars regex act =>
      [Chunk.header false name
        (elementHeaderText false name commonPars pars ret errorType)]
        ++ [Chunk.checkLimit (indentStr "check_limit!(input, depth);\n" 2)]
        ++ (match act with
            | some code =>
              [Chunk.actionCode 0 code
                (indentStr (spliceText "semantic action" 0
                  (adjustCode code)) 1)]
            | none => [])
        ++ outputRegexChunks regex commonArgs 2
        ++ [Chunk.footer "    \x7d\n"]
    | _ => []

def elementStr (e : Element) (commonPars commonArgs errorType : String) :
    String :=
  String.join
    ((outputElementChunks e commonPars commonArgs errorType).map
      Chunk.render)

/-- The fixed file header written by `create_parser` (rust.rs:65-74). -/
def genHeaderText (version : String) : String :=
  "// generated by lelwel " ++ version ++ "\n\n"
    ++ "#![allow(non_snake_case)]\n#![allow(unused_variables)]\n\n"
    ++ "use super::token::*;\n\n"

/-- Mirror of `output_preamble` (rust.rs:748-761). -/
def preambleStr (m : Module) : String :=
  (match m.preamble with
   | some code =>
     "// preamble\n"
       ++ String.join ((rustLines code.trim).map (fun l => l.trim ++ "\n"))
   | none => "") ++ "\n"

def tokenKindText (name ty : String) : String :=
  if ty = "" then "    " ++ name ++ ",\n"
  else "    " ++ name ++ "(" ++ ty ++ "),\n"

/-- The `(name, payload type)` pairs for which `output_tokens`
(rust.rs:764-780) writes a `TokenKind` variant: every `Token` element,
in element order. -/
def tokenVariantWrites (es : List Element) : List (String × String) :=
  es.filterMap (fun e =>
    match e.kind with
    | .token name ty _ => some (name, ty)
    | _ => none)

def tokensStr (m : Module) : String :=
  "#[derive(PartialEq, Clone, Debug)]\npub enum TokenKind \x7b\n    EOF,\n"
    ++ String.join
        ((tokenVariantWrites m.elements).map (fun p => tokenKindText p.1 p.2))
    ++ "\x7d\n\n"

def patternMacroText (name ty : String) : String :=
  if ty = "" then
    "macro_rules! pattern_" ++ name ++ " \x7b () => \x7b TokenKind::"
      ++ name ++ " \x7d \x7d\n"
  else
    "macro_rules! pattern_" ++ name ++ " \x7b () => \x7b TokenKind::"
      ++ name ++ "(_) \x7d \x7d\n"

/-- The `(name, payload type)` pairs for which `output_patterns`
(rust.rs:783-802) writes a `pattern_` macro: every `Token` element. -/
def patternWrites (es : List Element) : List (String × String) :=
  es.filterMap (fun e =>
    match e.kind with
    | .token name ty _ => some (name, ty)
    | _ => none)

def patternsStr (m : Module) : String :=
  "macro_rules! pattern_EOF \x7b () => \x7b TokenKind::EOF \x7d \x7d\n"
    ++ String.join
        ((patternWrites m.elements).map (fun p => patternMacroText p.1 p.2))
    ++ "\n"

/-- Mirror of `name.to_string().starts_with('_')` (rust.rs:810-812,
896-898): the first character of the name is an underscore. -/
def underscoreFirst (name : String) : Bool :=
  match name.data with
  | [] => false
  | c :: _ => c == Char.ofNat 95

def defaultMacroText (name ty : String) : String :=
  if ty = "" then
    "macro_rules! default_" ++ name ++ " \x7b () => \x7b TokenKind::"
      ++ name ++ " \x7d \x7d\n"
  else
    "macro_rules! default_" ++ name ++ " \x7b () => \x7b TokenKind::"
      ++ name ++ "(" ++ ty ++ "::default()) \x7d \x7d\n"

/-- The `(name, payload type)` pairs for which `output_defaults`
(rust.rs:805-828) writes a `default_` macro: every `Token` element
whose name does not begin with an underscore. -/
def defaultWrites (es : List Element) : List (String × String) :=
  es.filterMap (fun e =>
    match e.kind with
    | .token name ty _ =>
      if underscoreFirst name then none else some (name, ty)
    | _ => none)

def defaultsStr (m : Module) : String :=
  "macro_rules! default_EOF \x7b () => \x7b TokenKind::EOF \x7d \x7d\n"
    ++ String.join
        ((defaultWrites m.elements).map (fun p => defaultMacroText p.1 p.2))
    ++ "\n"

/-- Mirror of `output_error` (rust.rs:830-840). -/
def errorStr (m : Module) : String :=
  match m.error with
  | some code =>
    "macro_rules! err \x7b [$($tk:expr),*] => \x7b Err(" ++ code.trim
      ++ "::from(vec![$($tk),*])) \x7d \x7d\n\n"
  | none =>
    "macro_rules! err \x7b [$($tk:expr),*] => \x7b Err(vec![$($tk),*]) \x7d \x7d\n\n"

/-- The configured depth limit: the module's `Limit` element, or 128
when absent (rust.rs:843-851). -/
def moduleLimitVal (m : Module) : Nat := m.limit.getD 128

/-- Mirror of `output_check_limit` (rust.rs:842-889): with a declared
error type the guard finalizes the stream and returns a converted
static message; without one it panics. -/
def checkLimitStr (m : Module) : String :=
  match m.error with
  | some code =>
    "#[allow(unused_macros)]\nmacro_rules! check_limit \x7b\n    ($input:ident, $depth:expr) => \x7b\n        if $depth > "
      ++ toString (moduleLimitVal m)
      ++ " \x7b\n            $input.finalize();\n            return Err("
      ++ code.trim
      ++ "::from(\"exceeded recursion depth limit\"));\n        \x7d\n    \x7d\n\x7d\n\n"
  | none =>
    "#[allow(unused_macros)]\nmacro_rules! check_limit \x7b\n    ($input:ident, $depth:expr) => \x7b\n        if $depth > "
      ++ toString (moduleLimitVal m)
      ++ " \x7b\n            panic!(\"exceeded recursion depth limit\");\n        \x7d\n    \x7d\n\x7d\n\n"

def consumeMacroText (name ty : String) : String :=
  if ty = "" then
    "macro_rules! consume_" ++ name ++ " \x7b\n    ($input:ident) => \x7b\n        if let TokenKind::"
      ++ name
      ++ " = $input.current().kind \x7b\n            let range = $input.current().range;\n            $input.advance();\n            range\n        \x7d else \x7b\n            return err![default_"
      ++ name ++ "!()]\n        \x7d\n    \x7d\n\x7d\n"
  else
    "macro_rules! consume_" ++ name ++ " \x7b\n    ($input:ident) => \x7b\n        if let TokenKind::"
      ++ name
      ++ "(value) = $input.current().kind \x7b\n            let range = $input.current().range;\n            $input.advance();\n            (value, range)\n        \x7d else \x7b\n            return err![default_"
      ++ name ++ "!()]\n        \x7d\n    \x7d\n\x7d\n"

/-- The `(name, payload type)` pairs for which `output_consumes`
(rust.rs:892-934) writes a `consume_` macro: every `Token` element
whose name does not begin with an underscore. -/
def consumeWrites (es : List Element) : List (String × String) :=
  es.filterMap (fun e =>
    match e.kind with
    | .token name ty _ =>
      if underscoreFirst name then none else some (name, ty)
    | _ => none)

def consumesStr (m : Module) : String :=
  String.join
    ((consumeWrites m.elements).map (fun p => consumeMacroText p.1 p.2))
    ++ "\n"

def displayLineText (name sym : String) : String :=
  if sym = "" then
    "            pattern_" ++ name
      ++ "!() => write!(f, \"\x7b\x7d\", r###\"" ++ name ++ "\"###),\n"
  else
    "            pattern_" ++ name
      ++ "!() => write!(f, \"\x7b\x7d\", r###\"" ++ sym ++ "\"###),\n"

/-- Mirror of `output_display` (rust.rs:937-966). -/
def displayStr (m : Module) : String :=
  "use std::fmt;\nimpl fmt::Display for TokenKind \x7b\n    fn fmt(&self, f: &mut fmt::Formatter) -> fmt::Result \x7b\n        match self \x7b\n            pattern_EOF!() => write!(f, \"end of file\"),\n"
    ++ String.join
        (m.elements.filterMap (fun e =>
          match e.kind with
          | .token name _ sym => some (displayLineText name sym)
          | _ => none))
    ++ "        \x7d\n    \x7d\n\x7d\n\n"

def moduleCommonPars (m : Module) : String :=
  match m.parameters with
  | some code => ", " ++ code.trim
  | none => ""

def moduleCommonArgs (m : Module) : String :=
  match m.parameters with
  | some code => ", " ++ parToArg code.trim
  | none => ""

def moduleErrorType (m : Module) : String :=
  match m.error with
  | some code => code.trim
  | none => "Vec<TokenKind>"

/-- The return-type/parameter scan over `Start` elements
(rust.rs:995-1006). -/
def startRetPars (es : List Element) : String × String :=
  es.foldl
    (fun acc e =>
      match e.kind with
      | .start ret pars _ _ =>
        ((if ret = "" then acc.1 else ret),
         (if pars = "" then acc.2 else ", " ++ pars))
      | _ => acc)
    ("()", "")

/-- The fixed `Parser` struct and `parse` entry routine
(rust.rs:1007-1023). -/
def parseFnText (commonPars startPars startRet commonArgs
    errorType : String) : String :=
  "pub struct Parser;\n\nimpl<\x27a> Parser \x7b\n    pub fn parse<Input: TokenStream>(input: &mut Input"
    ++ commonPars ++ startPars ++ ") -> Result<" ++ startRet ++ ", "
    ++ errorType
    ++ "> \x7b\n        input.advance();\n        let out = Self::start(0, input"
    ++ commonArgs
    ++ ")?;\n        if input.current().kind != TokenKind::EOF \x7b\n            return err![default_EOF!()]\n        \x7d\n        Ok(out)\n    \x7d\n"

/-- Mirror of `output_parser` (rust.rs:969-1028). -/
def parserStr (m : Module) : String :=
  let cp := moduleCommonPars m
  let ca := moduleCommonArgs m
  let et := moduleErrorType m
  let rp := startRetPars m.elements
  parseFnText cp rp.2 rp.1 ca et
    ++ String.join (m.elements.map (fun e => elementStr e cp ca et))
    ++ "\x7d\n"

/-- Mirror of `create_parser` (rust.rs:63-84): the complete byte
content of the generated `parser.rs`, section by section in emission
order. -/
def createParserStr (m : Module) (version : String) : String :=
  genHeaderText version ++ preambleStr m ++ tokensStr m ++ patternsStr m
    ++ defaultsStr m ++ errorStr m ++ checkLimitStr m ++ consumesStr m
    ++ displayStr m ++ parserStr m

/-- Normalization of an annotation record: each set is replaced by its
canonical (sorted, duplicate-free) traversal.  Two annotation records
normalize equally iff their sets agree as sets. -/
def normAnn (a : Ann) : Ann :=
  ⟨btree a.first, btree a.follow, btree a.predict, btree a.cancel⟩

mutual

/-- Normalization of a regex: every annotation set is replaced by its
canonical traversal; the tree structure and all payloads are kept. -/
def normRegex : Regex → Regex
  | .idRule a p n rp => .idRule (normAnn a) p n rp
  | .idToken a p n => .idToken (normAnn a) p n
  | .strTok a p n => .strTok (normAnn a) p n
  | .concat a p ops err =>
    .concat (normAnn a) p (normRegexList ops) (normRegexOpt err)
  | .orRe a p ops err =>
    .orRe (normAnn a) p (normRegexList ops) (normRegexOpt err)
  | .star a p op => .star (normAnn a) p (normRegex op)
  | .plus a p op => .plus (normAnn a) p (normRegex op)
  | .optRe a p op => .optRe (normAnn a) p (normRegex op)
  | .paren a p op => .paren (normAnn a) p (normRegex op)
  | .action a p v c => .action (normAnn a) p v c
  | .errHandler a p v c => .errHandler (normAnn a) p v c
  | .predElem a p c => .predElem (normAnn a) p c

def normRegexList : List Regex → List Regex
  | [] => []
  | r :: rs => normRegex r :: normRegexList rs

def normRegexOpt : Option Regex → Option Regex
  | none => none
  | some r => some (normRegex r)

end

def normElement (e : Element) : Element :=
  ⟨e.used,
   match e.kind with
   | .start ret pars regex act => .start ret pars (normRegex regex) act
   | .rule name ret pars regex act =>
     .rule name ret pars (normRegex regex) act
   | k => k⟩

/-- Normalization of a module: elements in order, with every regex
annotation set replaced by its canonical traversal.  Two modules
normalize equally iff they have the same element sequence and, set for
set, the same annotation contents under the symbol total order. -/
def normModule (m : Module) : Module :=
  ⟨m.elements.map normElement, m.preamble, m.parameters, m.error, m.limit⟩

theorem normRegex_ann (r : Regex) : (normRegex r).ann = normAnn r.ann := by
  cases r <;> simp [normRegex, Regex.ann]

theorem normRegex_first (r : Regex) :
    (normRegex r).first = btree r.first := by
  simp [Regex.first, normRegex_ann, normAnn]

theorem normRegex_follow (r : Regex) :
    (normRegex r).follow = btree r.follow := by
  simp [Regex.follow, normRegex_ann, normAnn]

theorem normRegex_predictSet (r : Regex) :
    (normRegex r).predictSet = btree r.predictSet := by
  simp [Regex.predictSet, normRegex_ann, normAnn]

theorem normRegex_cancel (r : Regex) :
    (normRegex r).cancel = btree r.cancel := by
  simp [Regex.cancel, normRegex_ann, normAnn]

theorem optBindName_norm (r : Regex) :
    optBindName (normRegex r) = optBindName r := by
  cases r <;> simp [normRegex, optBindName]

theorem getPredicate_norm_aux :
    ∀ (n : Nat) (r : Regex), sizeOf r ≤ n →
      getPredicate (normRegex r) = getPredicate r := by
  intro n
  induction n with
  | zero =>
    intro r h
    exact absurd h (by cases r <;> simp)
  | succ n ih =>
    intro r h
    cases r with
    | concat a p ops err =>
      cases ops with
      | nil => simp [normRegex, normRegexList, getPredicate]
      | cons op rest =>
        cases op
        case predElem a2 p2 c2 =>
          cases c2 <;> simp [normRegex, normRegexList, getPredicate]
        all_goals simp [normRegex, normRegexList, getPredicate]
    | paren a p op =>
      have hop : sizeOf op ≤ n := by simp at h; omega
      simp [normRegex, getPredicate, ih op hop]
    | _ => simp [normRegex, getPredicate]

theorem getPredicate_norm (r : Regex) :
    getPredicate (normRegex r) = getPredicate r :=
  getPredicate_norm_aux (sizeOf r) r (le_refl _)

theorem concatEHText_btree (s : List Sym) :
    concatEHText (btree s) = concatEHText s := by
  simp [concatEHText, setPattern_btree, setError_btree]

theorem ehOpenText_btree (s : List Sym) :
    ehOpenText (btree s) = ehOpenText s := by
  simp [ehOpenText, setPattern_btree]

theorem ehCancelText_btree (s : List Sym) :
    ehCancelText (btree s) = ehCancelText s := by
  simp [ehCancelText, setPattern_btree]

theorem ehWrap_btree (f c : List Sym) (body : List Chunk) (lvl : Nat) :
    ehWrap (btree f) (btree c) body lvl = ehWrap f c body lvl := by
  simp [ehWrap, ehOpenText_btree, ehCancelText_btree, btree_idem]

theorem orDefaultText_btree (s : List Sym) :
    orDefaultText (btree s) = orDefaultText s := by
  simp [orDefaultText, setError_btree]

theorem starOpenText_btree (s : List Sym) (p : String) :
    starOpenText (btree s) p = starOpenText s p := by
  simp [starOpenText, setPattern_btree]

theorem starCloseText_btree (f s : List Sym) :
    starCloseText (btree f) (btree s) = starCloseText f s := by
  simp [starCloseText, setPattern_btree, setError_btree]

theorem plusOpenText_btree (s : List Sym) (p : String) :
    plusOpenText (btree s) p = plusOpenText s p := by
  simp [plusOpenText, setPattern_btree]

theorem plusCloseText_btree (f s : List Sym) :
    plusCloseText (btree f) (btree s) = plusCloseText f s := by
  simp [plusCloseText, setPattern_btree, setError_btree]

theorem optOpenText_btree (b : String) (s : List Sym) (p : String) :
    optOpenText b (btree s) p = optOpenText b s p := by
  simp [optOpenText, setPattern_btree]

theorem optCloseText_btree (f s : List Sym) (b : String) :
    optCloseText (btree f) (btree s) b = optCloseText f s b := by
  simp [optCloseText, setPattern_btree, setError_btree]

theorem isEH_norm (r : Regex) : (normRegex r).isEH = r.isEH := by
  cases r <;> simp [normRegex, Regex.isEH]

/-- Normalizing the annotation sets of a regex does not change any
emitted chunk: every set is read through its canonical traversal. -/
theorem chunksNormAll :
    ∀ (n : Nat),
      (∀ (r : Regex) (args : String) (lvl : Nat), sizeOf r ≤ n →
        outputRegexChunks (normRegex r) args lvl =
          outputRegexChunks r args lvl)
      ∧ (∀ (ops : List Regex) (args : String) (lvl : Nat),
          sizeOf ops ≤ n →
        concatOpsChunks (normRegexList ops) args lvl =
          concatOpsChunks ops args lvl)
      ∧ (∀ (ops : List Regex) (he : Bool) (args : String) (lvl : Nat),
          sizeOf ops ≤ n →
        orOpsChunks (normRegexList ops) he args lvl =
          orOpsChunks ops he args lvl) := by
  intro n
  induction n with
  | zero =>
    refine ⟨fun r args lvl h => absurd h (by cases r <;> simp),
            fun ops args lvl h => absurd h (by cases ops <;> simp),
            fun ops he args lvl h => absurd h (by cases ops <;> simp)⟩
  | succ n ih =>
    obtain ⟨ihR, ihC, ihO⟩ := ih
    refine ⟨?_, ?_, ?_⟩
    · intro r args lvl h
      cases r with
      | idRule a p nm rp => simp [normRegex, outputRegexChunks]
      | idToken a p nm => simp [normRegex, outputRegexChunks]
      | strTok a p nm => simp [normRegex, outputRegexChunks]
      | concat a p ops err =>
        cases err with
        | none =>
          have hops : sizeOf ops ≤ n := by simp at h; omega
          simp [normRegex, normRegexOpt, outputRegexChunks,
            ihC ops args _ hops]
        | some e =>
          have hops : sizeOf ops ≤ n := by simp at h; omega
          have hse : sizeOf e ≤ n := by simp at h; omega
          simp [normRegex, normRegexOpt, outputRegexChunks,
            ihC ops args _ hops, ihR e args _ hse,
            normRegex_follow, normRegex_cancel, ehWrap_btree]
      | orRe a p ops err =>
        cases err with
        | none =>
          have hops : sizeOf ops ≤ n := by simp at h; omega
          simp [normRegex, normRegexOpt, outputRegexChunks,
            ihO ops false args _ hops, normAnn, orDefaultText_btree]
        | some e =>
          have hops : sizeOf ops ≤ n := by simp at h; omega
          have hse : sizeOf e ≤ n := by simp at h; omega
          simp [normRegex, normRegexOpt, outputRegexChunks,
            ihO ops true args _ hops, ihR e args _ hse,
            normRegex_follow, normRegex_cancel, ehWrap_btree,
            normAnn, orDefaultText_btree]
      | star a p op =>
        have hop : sizeOf op ≤ n := by simp at h; omega
        simp [normRegex, outputRegexChunks, ihR op args _ hop,
          normRegex_first, getPredicate_norm, starOpenText_btree,
          normAnn, starCloseText_btree]
      | plus a p op =>
        have hop : sizeOf op ≤ n := by simp at h; omega
        simp [normRegex, outputRegexChunks, ihR op args _ hop,
          normRegex_first, getPredicate_norm, plusOpenText_btree,
          normAnn, plusCloseText_btree]
      | optRe a p op =>
        have hop : sizeOf op ≤ n := by simp at h; omega
        simp [normRegex, outputRegexChunks, ihR op args _ hop,
          normRegex_first, getPredicate_norm, optBindName_norm,
          optOpenText_btree, normAnn, optCloseText_btree]
      | paren a p op =>
        have hop : sizeOf op ≤ n := by simp at h; omega
        simp [normRegex, outputRegexChunks, ihR op args _ hop]
      | action a p v c =>
        cases c <;> simp [normRegex, outputRegexChunks]
      | errHandler a p v c =>
        cases c <;> simp [normRegex, outputRegexChunks]
      | predElem a p c =>
        simp [normRegex, outputRegexChunks]
    · intro ops args lvl h
      cases ops with
      | nil => simp [normRegexList, concatOpsChunks]
      | cons op rest =>
        have hop : sizeOf op ≤ n := by simp at h; omega
        have hrest : sizeOf rest ≤ n := by simp at h; omega
        simp [normRegexList, concatOpsChunks, isEH_norm,
          normRegex_follow, concatEHText_btree, ihR op args _ hop,
          ihC rest args _ hrest]
    · intro ops he args lvl h
      cases ops with
      | nil => simp [normRegexList, orOpsChunks]
      | cons op rest =>
        have hop : sizeOf op ≤ n := by simp at h; omega
        have hrest : sizeOf rest ≤ n := by simp at h; omega
        simp [normRegexList, orOpsChunks, isEH_norm,
          normRegex_predictSet, setPattern_btree, getPredicate_norm,
          ihR op args _ hop, ihO rest he args _ hrest]

theorem outputRegexChunks_norm (r : Regex) (args : String) (lvl : Nat) :
    outputRegexChunks (normRegex r) args lvl =
      outputRegexChunks r args lvl :=
  (chunksNormAll (sizeOf r)).1 r args lvl (le_refl _)

theorem outputElementChunks_norm (e : Element) (cp ca et : String) :
    outputElementChunks (normElement e) cp ca et =
      outputElementChunks e cp ca et := by
  cases e with
  | mk u k =>
    cases u <;> cases k <;>
      simp [outputElementChunks, normElement, outputRegexChunks_norm]

theorem elementStr_norm (e : Element) (cp ca et : String) :
    elementStr (normElement e) cp ca et = elementStr e cp ca et := by
  simp [elementStr, outputElementChunks_norm]

theorem tokenVariantWrites_norm (es : List Element) :
    tokenVariantWrites (es.map normElement) = tokenVariantWrites es := by
  unfold tokenVariantWrites
  induction es with
  | nil => rfl
  | cons e rest ih =>
    rw [List.map_cons, List.filterMap_cons, List.filterMap_cons, ih]
    cases e with
    | mk u k => cases k <;> rfl

theorem patternWrites_norm (es : List Element) :
    patternWrites (es.map normElement) = patternWrites es := by
  unfold patternWrites
  induction es with
  | nil => rfl
  | cons e rest ih =>
    rw [List.map_cons, List.filterMap_cons, List.filterMap_cons, ih]
    cases e with
    | mk u k => cases k <;> rfl

theorem defaultWrites_norm (es : List Element) :
    defaultWrites (es.map normElement) = defaultWrites es := by
  unfold defaultWrites
  induction es with
  | nil => rfl
  | cons e rest ih =>
    rw [List.map_cons, List.filterMap_cons, List.filterMap_cons, ih]
    cases e with
    | mk u k => cases k <;> rfl

theorem consumeWrites_norm (es : List Element) :
    consumeWrites (es.map normElement) = consumeWrites es := by
  unfold consumeWrites
  induction es with
  | nil => rfl
  | cons e rest ih =>
    rw [List.map_cons, List.filterMap_cons, List.filterMap_cons, ih]
    cases e with
    | mk u k => cases k <;> rfl

theorem displayFilter_norm (es : List Element) :
    es.filterMap ((fun e =>
      match e.kind with
      | .token name _ sym => some (displayLineText name sym)
      | _ => none) ∘ normElement)
    = es.filterMap (fun e =>
      match e.kind with
      | .token name _ sym => some (displayLineText name sym)
      | _ => none) := by
  induction es with
  | nil => rfl
  | cons e rest ih =>
    rw [List.filterMap_cons, List.filterMap_cons, ih]
    cases e with
    | mk u k => cases k <;> rfl

theorem elementStr_comp_norm (cp ca et : String) :
    ((fun e => elementStr e cp ca et) ∘ normElement)
      = fun e => elementStr e cp ca et := by
  funext e
  simp [Function.comp, elementStr_norm]

theorem startRetPars_norm (es : List Element) :
    startRetPars (es.map normElement) = startRetPars es := by
  suffices h : ∀ acc : String × String,
      List.foldl
        (fun acc e =>
          match e.kind with
          | .start ret pars _ _ =>
            ((if ret = "" then acc.1 else ret),
             (if pars = "" then acc.2 else ", " ++ pars))
          | _ => acc)
        acc (es.map normElement)
      = List.foldl
        (fun acc e =>
          match e.kind with
          | .start ret pars _ _ =>
            ((if ret = "" then acc.1 else ret),
             (if pars = "" then acc.2 else ", " ++ pars))
          | _ => acc)
        acc es by
    simp [startRetPars, h]
  induction es with
  | nil => intro acc; rfl
  | cons e rest ih =>
    intro acc
    cases e with
    | mk u k => cases k <;> simp [normElement, ih]

def Chunk.isHeader : Chunk → Bool
  | .header .. => true
  | _ => false

def Chunk.isCheckLimit : Chunk → Bool
  | .checkLimit _ => true
  | _ => false

theorem countP_ehWrap (p : Chunk → Bool)
    (hfr : ∀ t, p (.frag t) = false) (f cn : List Sym)
    (body : List Chunk) (lvl : Nat) :
    (ehWrap f cn body lvl).countP p = body.countP p := by
  by_cases hc : (btree cn).isEmpty <;>
    simp [ehWrap, hc, List.countP_append, List.countP_cons, hfr]

/-- `output_regex` never emits a routine header, a depth guard, or a
routine footer: counting any chunk property that holds only for those
chunk kinds gives zero over a compiled regex body. -/
theorem regexChunksCountP :
    ∀ (n : Nat) (p : Chunk → Bool),
      (∀ t, p (.frag t) = false) →
      (∀ v c t, p (.actionCode v c t) = false) →
      (∀ v q t, p (.todoAction v q t) = false) →
      (∀ v c t, p (.handlerCode v c t) = false) →
      (∀ v q t, p (.todoHandler v q t) = false) →
      (∀ (r : Regex) (args : String) (lvl : Nat), sizeOf r ≤ n →
        (outputRegexChunks r args lvl).countP p = 0)
      ∧ (∀ (ops : List Regex) (args : String) (lvl : Nat),
          sizeOf ops ≤ n → (concatOpsChunks ops args lvl).countP p = 0)
      ∧ (∀ (ops : List Regex) (he : Bool) (args : String) (lvl : Nat),
          sizeOf ops ≤ n → (orOpsChunks ops he args lvl).countP p = 0) := by
  intro n p hfr hac hta hhc hth
  induction n with
  | zero =>
    refine ⟨fun r args lvl h => absurd h (by cases r <;> simp),
            fun ops args lvl h => absurd h (by cases ops <;> simp),
            fun ops he args lvl h => absurd h (by cases ops <;> simp)⟩
  | succ n ih =>
    obtain ⟨ihR, ihC, ihO⟩ := ih
    refine ⟨?_, ?_, ?_⟩
    · intro r args lvl h
      cases r with
      | idRule a q nm rp => simp [outputRegexChunks, hfr]
      | idToken a q nm => simp [outputRegexChunks, hfr]
      | strTok a q nm => simp [outputRegexChunks, hfr]
      | concat a q ops err =>
        cases err with
        | none =>
          have hops : sizeOf ops ≤ n := by simp at h; omega
          simp [outputRegexChunks, ihC ops args _ hops]
        | some e =>
          have hops : sizeOf ops ≤ n := by simp at h; omega
          have hse : sizeOf e ≤ n := by simp at h; omega
          simp [outputRegexChunks, List.countP_append, List.countP_cons,
            hfr, countP_ehWrap p hfr, ihC ops args _ hops,
            ihR e args _ hse]
      | orRe a q ops err =>
        cases err with
        | none =>
          have hops : sizeOf ops ≤ n := by simp at h; omega
          simp [outputRegexChunks, List.countP_append, List.countP_cons,
            hfr, ihO ops false args _ hops]
        | some e =>
          have hops : sizeOf ops ≤ n := by simp at h; omega
          have hse : sizeOf e ≤ n := by simp at h; omega
          simp [outputRegexChunks, List.countP_append, List.countP_cons,
            hfr, countP_ehWrap p hfr, ihO ops true args _ hops,
            ihR e args _ hse]
      | star a q op =>
        have hop : sizeOf op ≤ n := by simp at h; omega
        simp [outputRegexChunks, List.countP_append, List.countP_cons,
          hfr, ihR op args _ hop]
      | plus a q op =>
        have hop : sizeOf op ≤ n := by simp at h; omega
        simp [outputRegexChunks, List.countP_append, List.countP_cons,
          hfr, ihR op args _ hop]
      | optRe a q op =>
        have hop : sizeOf op ≤ n := by simp at h; omega
        by_cases hb : optBindName op = "" <;>
          simp [outputRegexChunks, hb, List.countP_append,
            List.countP_cons, hfr, ihR op args _ hop]
      | paren a q op =>
        have hop : sizeOf op ≤ n := by simp at h; omega
        simp [outputRegexChunks, ihR op args _ hop]
      | action a q v c =>
        cases c <;> simp [outputRegexChunks, hac, hta]
      | errHandler a q v c =>
        cases c <;> simp [outputRegexChunks, hhc, hth]
      | predElem a q c =>
        simp [outputRegexChunks]
    · intro ops args lvl h
      cases ops with
      | nil => simp [concatOpsChunks]
      | cons op rest =>
        have hop : sizeOf op ≤ n := by simp at h; omega
        have hrest : sizeOf rest ≤ n := by simp at h; omega
        by_cases hb : op.isEH <;>
          simp [concatOpsChunks, hb, List.countP_append,
            List.countP_cons, hfr, ihR op args _ hop,
            ihC rest args _ hrest]
    · intro ops he args lvl h
      cases ops with
      | nil => simp [orOpsChunks]
      | cons op rest =>
        have hop : sizeOf op ≤ n := by simp at h; omega
        have hrest : sizeOf rest ≤ n := by simp at h; omega
        by_cases hb : op.isEH <;> cases he <;>
          simp [orOpsChunks, hb, List.countP_append,
            List.countP_cons, hfr, ihR op args _ hop,
            ihO rest _ args _ hrest]

theorem outputRegexChunks_no_header (r : Regex) (args : String)
    (lvl : Nat) :
    (outputRegexChunks r args lvl).countP Chunk.isHeader = 0 :=
  ((regexChunksCountP (sizeOf r) Chunk.isHeader
    (fun _ => rfl) (fun _ _ _ => rfl) (fun _ _ _ => rfl)
    (fun _ _ _ => rfl) (fun _ _ _ => rfl)).1) r args lvl (le_refl _)

theorem outputRegexChunks_no_checkLimit (r : Regex) (args : String)
    (lvl : Nat) :
    (outputRegexChunks r args lvl).countP Chunk.isCheckLimit = 0 :=
  ((regexChunksCountP (sizeOf r) Chunk.isCheckLimit
    (fun _ => rfl) (fun _ _ _ => rfl) (fun _ _ _ => rfl)
    (fun _ _ _ => rfl) (fun _ _ _ => rfl)).1) r args lvl (le_refl _)

/-- Normalizing a fully annotated module does not change one byte of
the generated parser: every annotation set is consumed through its
canonical ordered traversal, and everything else is a function of the
element sequence. -/
theorem createParserStr_norm (m : Module) (v : String) :
    createParserStr (normModule m) v = createParserStr m v := by
  simp [createParserStr, genHeaderText, preambleStr, tokensStr,
    patternsStr, defaultsStr, errorStr, checkLimitStr, consumesStr,
    displayStr, parserStr, normModule, moduleCommonPars,
    moduleCommonArgs, moduleErrorType, moduleLimitVal,
    tokenVariantWrites_norm, patternWrites_norm, defaultWrites_norm,
    consumeWrites_norm, displayFilter_norm, startRetPars_norm,
    List.map_map, elementStr_comp_norm]

/-
  Runtime models of the emitted code.

  A token stream is modelled by the list of tokens not yet consumed:
  the current lookahead of `input.current()` is the head (`none` when
  the stream is at end of input), `input.advance()` drops it.  A
  lookahead is `Option Sym` with `none` playing `TokenKind::EOF`.
-/

/-- A lookahead value: a terminal symbol, or `none` for
`TokenKind::EOF`. -/
abbrev Tok := Option Sym

theorem btree_isEmpty_false {s : List Sym} (h : s ≠ []) :
    (btree s).isEmpty = false := by
  cases hb : btree s with
  | nil => exact absurd (btree_eq_nil_iff.mp hb) h
  | cons a t => rfl

/-- Runtime meaning of the match pattern rendered by `setPattern`
(rust.rs:42-49): the empty set renders `pattern_EOF!()`, matching only
end of input; a nonempty set matches exactly the tokens whose kind is
in the set. -/
def matchesPat (s : List Sym) (cur : Tok) : Bool :=
  if btree s = [] then cur.isNone
  else
    match cur with
    | none => false
    | some t => decide (t ∈ btree s)

/-- Runtime value of the expected-token vector built from the
`default_*` list rendered by `setError` (rust.rs:50-57) inside an
`err![...]` invocation: the end-of-input default for the empty set,
otherwise one default per symbol in set order. -/
def errVec (s : List Sym) : List Tok :=
  if btree s = [] then [none] else (btree s).map some

theorem matchesPat_some_iff {s : List Sym} (hs : s ≠ []) (t : Sym) :
    matchesPat s (some t) = true ↔ t ∈ s := by
  have hb : btree s ≠ [] := fun h => hs (btree_eq_nil_iff.mp h)
  simp [matchesPat, hb, mem_btree]

theorem matchesPat_none_iff (s : List Sym) :
    matchesPat s none = true ↔ s = [] := by
  by_cases hb : btree s = []
  · simp [matchesPat, hb, btree_eq_nil_iff.mp hb, btree_nil]
  · unfold matchesPat
    rw [if_neg hb]
    simp only [Bool.false_eq_true, false_iff]
    exact fun h => hb (by simp [h, btree_nil])

theorem matchesPat_some_false {s : List Sym} {t : Sym} (h : t ∉ s) :
    matchesPat s (some t) = false := by
  by_cases hb : btree s = []
  · simp [matchesPat, hb]
  · simp [matchesPat, hb, mem_btree, h]

theorem mem_errVec {s : List Sym} (hs : s ≠ []) (x : Tok) :
    x ∈ errVec s ↔ ∃ t, x = some t ∧ t ∈ s := by
  have hb : btree s ≠ [] := fun h => hs (btree_eq_nil_iff.mp h)
  unfold errVec
  rw [if_neg hb]
  simp only [List.mem_map]
  constructor
  · rintro ⟨t, ht, rfl⟩
    exact ⟨t, rfl, mem_btree.mp ht⟩
  · rintro ⟨t, rfl, ht⟩
    exact ⟨t, mem_btree.mpr ht, rfl⟩

/-
  C1 model: the failure boundary emitted by `output_error_handler`
  (rust.rs:402-453) around a `Concat` or `Or` body, i.e. the runtime
  behavior of the emitted text

    })().or_else(|error_code| {
        // error handling
        if input.current().kind == TokenKind::EOF {
            return Err(error_code);
        }
        let error_range = input.current().range;
        loop {
            match input.current().kind {
                <follow(error) pattern> => { <handler body> return Ok(()) }
                <cancel(error) pattern, emitted only when nonempty>
                    => { return Err(error_code) }
                _ => { input.advance(); }
            }
        }
    })?;
-/

/-- Outcome of the failure boundary: a returned `Result` together with
the remaining input, or divergence (the resync loop can only fail to
return by advancing at end of input forever). -/
inductive EHOutcome (E : Type) where
  | done (r : Except E Unit) (rest : List Sym)
  | hang

/-- Running the error-handler body inside the `follow` arm: handler
success becomes `return Ok(())`, a handler failure propagates out of
the `or_else` closure. -/
def handlerRun {E : Type}
    (handler : List Sym → Except E Unit × List Sym)
    (toks : List Sym) : EHOutcome E :=
  match handler toks with
  | (.ok _, rest) => .done (.ok ()) rest
  | (.error e, rest) => .done (.error e) rest

/-- The resync loop of `output_error_handler` (rust.rs:416-452): on
each iteration the lookahead is inspected; the `follow(error)` pattern
arm runs the handler and resumes successfully; the `cancel(error)` arm
(present only when the cancel set is nonempty) re-raises the original
failure without consuming; otherwise one token is consumed and the
loop repeats.  At end of input neither a nonempty follow nor a
nonempty cancel pattern can match, and the default arm loops without
progress: `hang`. -/
def resyncLoop {E : Type} (followE cancelE : List Sym)
    (handler : List Sym → Except E Unit × List Sym) (ec : E) :
    List Sym → EHOutcome E
  | [] =>
    if matchesPat followE none then handlerRun handler []
    else if ((btree cancelE).isEmpty = false) && matchesPat cancelE none
    then .done (.error ec) []
    else .hang
  | t :: rest =>
    if matchesPat followE (some t) then handlerRun handler (t :: rest)
    else if ((btree cancelE).isEmpty = false)
            && matchesPat cancelE (some t) then
      .done (.error ec) (t :: rest)
    else resyncLoop followE cancelE handler ec rest

/-- The whole failure boundary (rust.rs:408-414 plus the loop): run the
wrapped body; on success pass its result through; on failure re-raise
immediately when the lookahead is already end of input, otherwise enter
the resync loop. -/
def runWithErrorHandler {E : Type}
    (body : List Sym → Except E Unit × List Sym)
    (followE cancelE : List Sym)
    (handler : List Sym → Except E Unit × List Sym)
    (toks : List Sym) : EHOutcome E :=
  match body toks with
  | (.ok _, rest) => .done (.ok ()) rest
  | (.error ec, rest) =>
    match rest with
    | [] => .done (.error ec) []
    | t :: r => resyncLoop followE cancelE handler ec (t :: r)

/-
  C2/C3 model: outcomes of a compiled construct under the default
  error type `Vec<TokenKind>`: success with the remaining input, a
  propagated `err![...]` failure carrying the expected-token vector
  and the remaining input, or divergence.
-/

inductive PRes where
  | okR (rest : List Sym)
  | errR (e : List Tok) (rest : List Sym)
  | hang
deriving DecidableEq, Repr

/-- The loop emitted for `Plus(op)` (rust.rs:605-640):

    let mut is_first = true;
    loop {
        match input.current().kind {
            <first(op) pattern><predicate> => { <op body> }
            <follow pattern> if !is_first => break,
            _ if is_first => { return err![<first defaults>] }
            _ => { return err![<first defaults>, <follow defaults>] }
        }
        is_first = false;
    }

`opFirst` is `op.first()` (the dispatch arm), `plusFirst` is
`regex.first()` (the expected set of both failure arms), `followP` is
`regex.follow()`; `p` is the compiled guard of `get_predicate` and
`body` the compiled `op`.  The fuel bounds the number of iterations;
running out of fuel reports divergence. -/
def plusLoopAux (opFirst plusFirst followP : List Sym)
    (p : List Sym → Bool) (body : List Sym → PRes) :
    Nat → Bool → List Sym → PRes
  | 0, _, _ => .hang
  | fuel + 1, isFirst, toks =>
    if matchesPat opFirst toks.head? && p toks then
      match body toks with
      | .okR rest => plusLoopAux opFirst plusFirst followP p body fuel false rest
      | r => r
    else if matchesPat followP toks.head? && !isFirst then .okR toks
    else if isFirst then .errR (errVec plusFirst) toks
    else .errR (errVec plusFirst ++ errVec followP) toks

/-- Entry of the `Plus` loop: the first iteration runs with `is_first
= true`. -/
def plusRun (opFirst plusFirst followP : List Sym)
    (p : List Sym → Bool) (body : List Sym → PRes) (fuel : Nat)
    (toks : List Sym) : PRes :=
  plusLoopAux opFirst plusFirst followP p body fuel true toks

/-- One alternative of an `Or` dispatch: the `ErrorHandler` tag
(excluded from dispatch), the branch predict set, the compiled
predicate guard (constantly true when no predicate is present), and
the compiled branch body. -/
structure OrBranch where
  isEH : Bool
  predictB : List Sym
  guardB : List Sym → Bool
  bodyB : List Sym → PRes

/-- The dispatch emitted for `Or` (rust.rs:533-575): the match tries
the non-`ErrorHandler` branches in order, entering the first whose
predict pattern matches the lookahead and whose guard holds; when no
arm is taken the default arm fails with the expected vector rendered
from `regex.predict()`. -/
def orDispatch (branches : List OrBranch) (orPredict : List Sym)
    (toks : List Sym) : PRes :=
  match branches with
  | [] => .errR (errVec orPredict) toks
  | b :: bs =>
    if !b.isEH && matchesPat b.predictB toks.head? && b.guardB toks then
      b.bodyB toks
    else orDispatch bs orPredict toks

/-
  C4 model: the `check_limit!` macro (rust.rs:842-889) expanded at the
  top of every emitted non-start rule (rust.rs:354).
-/

/-- Outcome of the depth guard: fall through, or fail fatally — with a
declared error type the stream is finalized and a `ParserError`
message returned, without one the generated code panics. -/
inductive GuardOutcome where
  | pass
  | finalizeThenError (msg : String)
  | abortMsg (msg : String)
deriving DecidableEq, Repr

/-- Runtime behavior of `check_limit!(input, depth)`: nothing happens
unless `depth > limit`; then, if an `ErrorCode` element is declared,
`input.finalize()` runs and
`Err(<code>::from("exceeded recursion depth limit"))` is returned;
otherwise the expansion is
`panic!("exceeded recursion depth limit")`. -/
def checkLimitRun (errDeclared : Bool) (limit depth : Nat) :
    GuardOutcome :=
  if depth > limit then
    if errDeclared then .finalizeThenError "exceeded recursion depth limit"
    else .abortMsg "exceeded recursion depth limit"
  else .pass

/-- A rule whose body immediately recurses into itself: each nested
invocation enters at depth one larger (`Self::r#rule(depth + 1, ...)`,
rust.rs:474), runs its guard first, and recurses when the guard passes.
Returns the guard outcome and the depth of the invocation at which the
guard fired. -/
def selfRecRun (errDeclared : Bool) (limit : Nat) :
    Nat → Nat → Option (GuardOutcome × Nat)
  | 0, _ => none
  | fuel + 1, depth =>
    match checkLimitRun errDeclared limit depth with
    | .pass => selfRecRun errDeclared limit fuel (depth + 1)
    | g => some (g, depth)

/-
  C5 model: the emitted top-level entry routine (rust.rs:1007-1023):

    pub fn parse<Input: TokenStream>(input: &mut Input, ...)
        -> Result<StartRet, ErrorType> {
        input.advance();
        let out = Self::start(0, input, ...)?;
        if input.current().kind != TokenKind::EOF {
            return err![default_EOF!()]
        }
        Ok(out)
    }
-/

/-- A token stream with an explicit current token (`none` = EOF) and
the tokens not yet produced. -/
structure Stream where
  cur : Tok
  rest : List Sym
deriving DecidableEq, Repr

/-- `input.advance()`: the next pending token becomes current. -/
def Stream.advance (s : Stream) : Stream :=
  ⟨s.rest.head?, s.rest.tail⟩

/-- The entry routine: advance to the first token, call the start
routine at depth 0, propagate its failure unchanged, and on success
require the lookahead to be end of input, failing with
`err![default_EOF!()]` (expected set = end of input only)
otherwise. -/
def parseRun {α : Type}
    (startFn : Nat → Stream → Except (List Tok) (α × Stream))
    (s0 : Stream) : Except (List Tok) α :=
  match startFn 0 s0.advance with
  | .error e => .error e
  | .ok (out, s1) => if s1.cur ≠ none then .error [none] else .ok out

/-- C1: for every `Concat` or `Or` with an attached error handler, the
emitted recovery code (`output_error_handler`, rust.rs:402-453) behaves
as follows on failure of the wrapped body: if the current lookahead is
end of input, the original failure `ec` is re-raised immediately;
otherwise the resync loop inspects the lookahead: a token in
`follow(error)` runs the error-handler body and resumes successfully
(the handler's own outcome is returned, success becoming `Ok(())`); a
token in `cancel(error)`, when that set is nonempty and the token is
not also claimed by the `follow` arm, re-raises the original failure
without consuming it; any other token is consumed and the loop
repeats. -/
theorem C1_error_handler_recovery {E : Type}
    (followE cancelE : List Sym)
    (body handler : List Sym → Except E Unit × List Sym)
    (toks rest : List Sym) (ec : E)
    (hfail : body toks = (.error ec, rest)) :
    (rest = [] →
      runWithErrorHandler body followE cancelE handler toks =
        .done (.error ec) [])
    ∧ (∀ t r, rest = t :: r → t ∈ followE →
      runWithErrorHandler body followE cancelE handler toks =
        handlerRun handler rest
      ∧ (∀ s1, handler rest = (.ok (), s1) →
          runWithErrorHandler body followE cancelE handler toks =
            .done (.ok ()) s1))
    ∧ (∀ t r, rest = t :: r → t ∉ followE → cancelE ≠ [] →
        t ∈ cancelE →
      runWithErrorHandler body followE cancelE handler toks =
        .done (.error ec) rest)
    ∧ (∀ t r, rest = t :: r → t ∉ followE →
        ¬(cancelE ≠ [] ∧ t ∈ cancelE) →
      runWithErrorHandler body followE cancelE handler toks =
        resyncLoop followE cancelE handler ec r) := by
  refine ⟨?_, ?_, ?_, ?_⟩
  · intro hrest
    subst hrest
    simp [runWithErrorHandler, hfail]
  · intro t r hrest hmem
    subst hrest
    have hne : followE ≠ [] := List.ne_nil_of_mem hmem
    have hm : matchesPat followE (some t) = true :=
      (matchesPat_some_iff hne t).mpr hmem
    constructor
    · simp [runWithErrorHandler, hfail, resyncLoop, hm]
    · intro s1 hh
      simp [runWithErrorHandler, hfail, resyncLoop, hm, handlerRun, hh]
  · intro t r hrest hnf hcne hmem
    subst hrest
    have hm : matchesPat followE (some t) = false := matchesPat_some_false hnf
    have hc : matchesPat cancelE (some t) = true :=
      (matchesPat_some_iff hcne t).mpr hmem
    simp [runWithErrorHandler, hfail, resyncLoop, hm, hc,
      btree_isEmpty_false hcne]
  · intro t r hrest hnf hcanc
    subst hrest
    have hm : matchesPat followE (some t) = false := matchesPat_some_false hnf
    by_cases hce : cancelE = []
    · subst hce
      simp [runWithErrorHandler, hfail, resyncLoop, hm, btree_nil]
    · have hcm : t ∉ cancelE := fun hmem => hcanc ⟨hce, hmem⟩
      simp [runWithErrorHandler, hfail, resyncLoop, hm,
        matchesPat_some_false hcm]

/-- Witness for C1: a concrete body failing with lookahead in the
follow set; the handler runs and the construct resumes successfully
with the handler's stream state. -/
theorem C1_error_handler_recovery_witness :
    runWithErrorHandler (E := Nat)
      (fun _ => (.error 7, ["y", "w"])) ["y"] ["z"]
      (fun _ => (.ok (), ["w"])) ["a"]
      = .done (.ok ()) ["w"] :=
  ((C1_error_handler_recovery ["y"] ["z"]
      (fun _ => (.error 7, ["y", "w"])) (fun _ => (.ok (), ["w"]))
      ["a"] ["y", "w"] 7 rfl).2.1 "y" ["w"] rfl (by decide)).2
    ["w"] rfl

/-- C2: the loop emitted for `Plus(op)` distinguishes the two failure
cases.  A lookahead mismatch (no match of the `first(op)` arm, the
predicate included) on the first iteration fails with expected vector
rendered from `regex.first()` alone — which equals `first(op)` by the
annotation contract, taken here as the hypothesis `hEq`; the same
mismatch on a later iteration, when the lookahead is not in the follow
set either, fails with the expected vector of `regex.first()` followed
by `regex.follow()`, whose members are exactly `first(op) ∪ follow`; a
lookahead in the follow set on a non-first iteration exits the loop
normally. -/
theorem C2_plus_first_vs_later (opFirst plusFirst followP : List Sym)
    (p : List Sym → Bool) (body : List Sym → PRes) (fuel : Nat)
    (toks : List Sym)
    (hEq : btree plusFirst = btree opFirst)
    (hF : opFirst ≠ []) (hFol : followP ≠ []) :
    (¬(matchesPat opFirst toks.head? = true ∧ p toks = true) →
      plusRun opFirst plusFirst followP p body (fuel + 1) toks =
        .errR (errVec plusFirst) toks
      ∧ (∀ x, x ∈ errVec plusFirst ↔ ∃ t, x = some t ∧ t ∈ opFirst))
    ∧ (¬(matchesPat opFirst toks.head? = true ∧ p toks = true) →
      matchesPat followP toks.head? = false →
      plusLoopAux opFirst plusFirst followP p body (fuel + 1) false toks =
        .errR (errVec plusFirst ++ errVec followP) toks
      ∧ (∀ x, x ∈ errVec plusFirst ++ errVec followP ↔
          ∃ t, x = some t ∧ (t ∈ opFirst ∨ t ∈ followP)))
    ∧ (¬(matchesPat opFirst toks.head? = true ∧ p toks = true) →
      matchesPat followP toks.head? = true →
      plusLoopAux opFirst plusFirst followP p body (fuel + 1) false toks =
        .okR toks) := by
  have hPF : plusFirst ≠ [] := by
    intro h
    apply hF
    rw [← btree_eq_nil_iff, ← hEq, h, btree_nil]
  have hMemIff : ∀ t, t ∈ plusFirst ↔ t ∈ opFirst := fun t => by
    rw [← mem_btree, hEq, mem_btree]
  refine ⟨?_, ?_, ?_⟩
  · intro h1
    have hb : (matchesPat opFirst toks.head? && p toks) = false := by
      cases hA : matchesPat opFirst toks.head? <;>
        cases hB : p toks <;> simp_all
    refine ⟨by simp [plusRun, plusLoopAux, hb], fun x => ?_⟩
    rw [mem_errVec hPF x]
    constructor
    · rintro ⟨t, rfl, ht⟩; exact ⟨t, rfl, (hMemIff t).mp ht⟩
    · rintro ⟨t, rfl, ht⟩; exact ⟨t, rfl, (hMemIff t).mpr ht⟩
  · intro h1 h2
    have hb : (matchesPat opFirst toks.head? && p toks) = false := by
      cases hA : matchesPat opFirst toks.head? <;>
        cases hB : p toks <;> simp_all
    refine ⟨by simp [plusLoopAux, hb, h2], fun x => ?_⟩
    rw [List.mem_append, mem_errVec hPF x, mem_errVec hFol x]
    constructor
    · rintro (⟨t, rfl, ht⟩ | ⟨t, rfl, ht⟩)
      · exact ⟨t, rfl, Or.inl ((hMemIff t).mp ht)⟩
      · exact ⟨t, rfl, Or.inr ht⟩
    · rintro ⟨t, rfl, ht | ht⟩
      · exact Or.inl ⟨t, rfl, (hMemIff t).mpr ht⟩
      · exact Or.inr ⟨t, rfl, ht⟩
  · intro h1 h2
    have hb : (matchesPat opFirst toks.head? && p toks) = false := by
      cases hA : matchesPat opFirst toks.head? <;>
        cases hB : p toks <;> simp_all
    simp [plusLoopAux, hb, h2]

/-- Witness for C2: with `first(op) = {B}` and `follow = {Y}`, empty
input fails on the first iteration with expected vector `[B]` alone,
while the lookahead `Z` on a later iteration fails with expected
vector `[B, Y]`. -/
theorem C2_plus_first_vs_later_witness :
    plusRun ["B"] ["B"] ["Y"] (fun _ => true)
      (fun l => if l.head? = some "B" then .okR l.tail else .errR [] l)
      1 [] = .errR [some "B"] []
    ∧ plusLoopAux ["B"] ["B"] ["Y"] (fun _ => true)
        (fun l => if l.head? = some "B" then .okR l.tail else .errR [] l)
        1 false ["Z"] = .errR [some "B", some "Y"] ["Z"] := by
  have hv1 : errVec ["B"] = [some "B"] := by decide
  have hv2 : errVec ["B"] ++ errVec ["Y"] = [some "B", some "Y"] := by
    decide
  refine ⟨?_, ?_⟩
  · have h := (C2_plus_first_vs_later ["B"] ["B"] ["Y"] (fun _ => true)
      (fun l => if l.head? = some "B" then .okR l.tail else .errR [] l)
      0 [] rfl (by decide) (by decide)).1 (by decide)
    rw [hv1] at h
    exact h.1
  · have h := (C2_plus_first_vs_later ["B"] ["B"] ["Y"] (fun _ => true)
      (fun l => if l.head? = some "B" then .okR l.tail else .errR [] l)
      0 ["Z"] rfl (by decide) (by decide)).2.1 (by decide) (by decide)
    rw [hv2] at h
    exact h.1

theorem orDispatch_find (branches : List OrBranch) (orPredict : List Sym)
    (toks : List Sym) :
    orDispatch branches orPredict toks =
      match branches.find? (fun b =>
          !b.isEH && matchesPat b.predictB toks.head? && b.guardB toks) with
      | some b => b.bodyB toks
      | none => .errR (errVec orPredict) toks := by
  induction branches with
  | nil => simp [orDispatch]
  | cons b bs ih =>
    cases hb : (!b.isEH && matchesPat b.predictB toks.head?
        && b.guardB toks) <;>
      simp [orDispatch, List.find?_cons, hb, ih]

theorem orDispatch_filter (branches : List OrBranch)
    (orPredict : List Sym) (toks : List Sym) :
    orDispatch branches orPredict toks =
      orDispatch (branches.filter (fun b => !b.isEH)) orPredict toks := by
  induction branches with
  | nil => simp
  | cons b bs ih =>
    cases hEH : b.isEH <;>
      simp [orDispatch, List.filter_cons, hEH, ih]

/-- C3: the dispatch emitted for an `Or` node tries each
non-`ErrorHandler` branch's predict pattern in branch order, gated by
the branch predicate: the selected branch is the first one whose
pattern matches and whose predicate holds (`find?`); `ErrorHandler`
members are omitted from the dispatch entirely (filtering them away
leaves the dispatch unchanged); and when no branch is selected the
construct fails with the expected vector rendered from
`regex.predict()`, whose members — under the annotation contract that
`regex.predict()` is the union of the branch predict sets — are
exactly that union. -/
theorem C3_or_dispatch (branches : List OrBranch) (orPredict : List Sym)
    (toks : List Sym) :
    (orDispatch branches orPredict toks =
      match branches.find? (fun b =>
          !b.isEH && matchesPat b.predictB toks.head? && b.guardB toks) with
      | some b => b.bodyB toks
      | none => .errR (errVec orPredict) toks)
    ∧ (orDispatch branches orPredict toks =
      orDispatch (branches.filter (fun b => !b.isEH)) orPredict toks)
    ∧ ((∀ b ∈ branches, b.isEH = false →
          matchesPat b.predictB toks.head? = false
          ∨ b.guardB toks = false) →
      orDispatch branches orPredict toks =
        .errR (errVec orPredict) toks
      ∧ (orPredict ≠ [] →
        (∀ t, t ∈ orPredict ↔
          ∃ b ∈ branches, b.isEH = false ∧ t ∈ b.predictB) →
        ∀ x, x ∈ errVec orPredict ↔
          ∃ b ∈ branches, b.isEH = false
            ∧ ∃ t, x = some t ∧ t ∈ b.predictB)) := by
  refine ⟨orDispatch_find branches orPredict toks,
    orDispatch_filter branches orPredict toks, ?_⟩
  intro hnm
  have hfind : branches.find? (fun b =>
      !b.isEH && matchesPat b.predictB toks.head? && b.guardB toks)
      = none := by
    rw [List.find?_eq_none]
    intro b hb
    cases hEH : b.isEH with
    | true => simp [hEH]
    | false =>
      rcases hnm b hb hEH with h | h <;> simp [hEH, h]
  constructor
  · rw [orDispatch_find branches orPredict toks, hfind]
  · intro hne hU x
    constructor
    · intro hx
      obtain ⟨t, rfl, ht⟩ := (mem_errVec hne x).mp hx
      obtain ⟨b, hbmem, hbeh, htb⟩ := (hU t).mp ht
      exact ⟨b, hbmem, hbeh, t, rfl, htb⟩
    · rintro ⟨b, hbmem, hbeh, t, rfl, htb⟩
      exact (mem_errVec hne (some t)).mpr
        ⟨t, rfl, (hU t).mpr ⟨b, hbmem, hbeh, htb⟩⟩

/-- Witness for C3: one real branch predicting `A` and one
`ErrorHandler` member; the lookahead `C` matches no branch, so the
dispatch fails with the expected vector of the union `{A}`. -/
theorem C3_or_dispatch_witness :
    orDispatch
      [⟨false, ["A"], fun _ => true, fun l => .okR l.tail⟩,
       ⟨true, [], fun _ => true, fun l => .okR l⟩]
      ["A"] ["C"] = .errR [some "A"] ["C"] := by
  have h := (C3_or_dispatch
    [⟨false, ["A"], fun _ => true, fun l => .okR l.tail⟩,
     ⟨true, [], fun _ => true, fun l => .okR l⟩]
    ["A"] ["C"]).2.2 ?_
  · have hv : errVec ["A"] = [some "A"] := by decide
    rw [hv] at h
    exact h.1
  · intro b hb hEH
    simp only [List.mem_cons, List.mem_singleton] at hb
    rcases hb with rfl | rfl | h'
    · exact Or.inl (by decide)
    · exact absurd hEH (by decide)
    · exact absurd h' (List.not_mem_nil b)

/-- C4: every emitted non-start rule routine begins with the depth
guard — the chunks of a used `Rule` start with the routine header
followed immediately by the `check_limit!` invocation, while the
chunks of a used `Start` contain no depth guard at all.  The guard
passes while `depth ≤ limit` and fails fatally when `depth > limit`:
with a declared error type it finalizes the stream and returns the
fixed recursion-limit `ParserError` message, without one it aborts.
The configured limit is the module's `Limit` element, 128 when absent.
With limit 2, a self-recursive rule entered from the start routine at
depth 1 passes the guard on its 1st and 2nd nested invocations and
fails fatally on the 3rd (depth 3). -/
theorem C4_depth_guard (errD : Bool) (limit depth : Nat) (m : Module)
    (name ret pars : String) (regex : Regex) (act : Option String)
    (retS parsS : String) (regexS : Regex) (actS : Option String)
    (cp ca et : String) :
    (depth ≤ limit → checkLimitRun errD limit depth = .pass)
    ∧ (limit < depth →
        checkLimitRun true limit depth =
          .finalizeThenError "exceeded recursion depth limit"
        ∧ checkLimitRun false limit depth =
          .abortMsg "exceeded recursion depth limit")
    ∧ (m.limit = none → moduleLimitVal m = 128)
    ∧ (∀ d, m.limit = some d → moduleLimitVal m = d)
    ∧ (∃ rest,
        outputElementChunks ⟨true, .rule name ret pars regex act⟩ cp ca et
          = Chunk.header false name
              (elementHeaderText false name cp pars ret et)
            :: Chunk.checkLimit
                (indentStr "check_limit!(input, depth);\n" 2) :: rest)
    ∧ ((outputElementChunks ⟨true, .start retS parsS regexS actS⟩
          cp ca et).countP Chunk.isCheckLimit = 0)
    ∧ (checkLimitRun errD 2 1 = .pass ∧ checkLimitRun errD 2 2 = .pass
       ∧ selfRecRun true 2 3 1 =
           some (.finalizeThenError "exceeded recursion depth limit", 3)
       ∧ selfRecRun false 2 3 1 =
           some (.abortMsg "exceeded recursion depth limit", 3)
       ∧ selfRecRun errD 2 2 1 = none) := by
  refine ⟨?_, ?_, ?_, ?_, ?_, ?_, ?_⟩
  · intro h
    simp [checkLimitRun, Nat.not_lt.mpr h]
  · intro h
    exact ⟨by simp [checkLimitRun, h], by simp [checkLimitRun, h]⟩
  · intro h; simp [moduleLimitVal, h]
  · intro d h; simp [moduleLimitVal, h]
  · cases act with
    | none =>
      exact ⟨outputRegexChunks regex ca 2 ++ [Chunk.footer "    \x7d\n"],
        by simp [outputElementChunks]⟩
    | some c =>
      exact ⟨Chunk.actionCode 0 c
          (indentStr (spliceText "semantic action" 0 (adjustCode c)) 1)
          :: (outputRegexChunks regex ca 2 ++ [Chunk.footer "    \x7d\n"]),
        by simp [outputElementChunks]⟩
  · cases actS <;>
      simp [outputElementChunks, List.countP_append, List.countP_cons,
        Chunk.isCheckLimit, outputRegexChunks_no_checkLimit]
  · cases errD <;> exact ⟨by decide, by decide, by decide, by decide,
      by decide⟩

/-- Witness for C4: with limit 5 a call at depth 6 fails fatally
through the error channel; the default limit is 128; with limit 2 the
self-recursion scenario fires at depth 3. -/
theorem C4_depth_guard_witness :
    checkLimitRun true 5 6 =
      .finalizeThenError "exceeded recursion depth limit"
    ∧ moduleLimitVal ⟨[], none, none, none, none⟩ = 128
    ∧ selfRecRun true 2 3 1 =
        some (.finalizeThenError "exceeded recursion depth limit", 3) := by
  have h := C4_depth_guard true 5 6 ⟨[], none, none, none, none⟩
    "r" "" "" (Regex.idToken ⟨[], [], [], []⟩ 0 "A") none
    "" "" (Regex.idToken ⟨[], [], [], []⟩ 0 "A") none "" "" ""
  exact ⟨(h.2.1 (by decide)).1, h.2.2.1 rfl, h.2.2.2.2.2.2.2.2.1⟩

/-- C5: the emitted top-level entry routine first advances the stream
to the first token, invokes the start routine at depth 0, propagates a
failure of the start routine unchanged, fails with expected set
consisting of end of input alone (the `errVec` of the empty set) when
the start routine succeeds but the lookahead is not end of input, and
otherwise returns the start routine's result. -/
theorem C5_entry_completeness {α : Type}
    (startFn : Nat → Stream → Except (List Tok) (α × Stream))
    (s0 : Stream) :
    (errVec [] = [none])
    ∧ (∀ e, startFn 0 s0.advance = .error e →
        parseRun startFn s0 = .error e)
    ∧ (∀ v s1 t, startFn 0 s0.advance = .ok (v, s1) → s1.cur = some t →
        parseRun startFn s0 = .error [none])
    ∧ (∀ v s1, startFn 0 s0.advance = .ok (v, s1) → s1.cur = none →
        parseRun startFn s0 = .ok v) := by
  refine ⟨rfl, ?_, ?_, ?_⟩
  · intro e h
    simp [parseRun, h]
  · intro v s1 t h hc
    simp [parseRun, h, hc]
  · intro v s1 h hc
    simp [parseRun, h, hc]

/-- Witness for C5: a start routine that leaves a token pending makes
the entry routine fail with the end-of-input expected vector; one that
consumes everything returns its value. -/
theorem C5_entry_completeness_witness :
    parseRun (α := Nat)
      (fun _ _ => Except.ok (1, ⟨some "t", []⟩)) ⟨none, []⟩
      = .error [none]
    ∧ parseRun (α := Nat) (fun _ s => Except.ok (42, s)) ⟨none, []⟩
      = .ok 42 :=
  ⟨(C5_entry_completeness
      (fun _ _ => Except.ok (1, ⟨some "t", []⟩)) ⟨none, []⟩).2.2.1
      1 ⟨some "t", []⟩ "t" rfl rfl,
   (C5_entry_completeness
      (fun _ s => Except.ok (42, s)) ⟨none, []⟩).2.2.2
      42 ⟨none, []⟩ rfl rfl⟩

/-- C6: code generation is deterministic: the generated output is a
pure function of the module, and two modules with the same element
sequence whose annotation sets agree as sets — i.e. whose
normalizations coincide — produce byte-identical output.  Emission
order is thereby a function only of module element order and of each
set's total symbol order. -/
theorem C6_determinism (m1 m2 : Module) (version : String)
    (h : normModule m1 = normModule m2) :
    createParserStr m1 version = createParserStr m2 version := by
  rw [← createParserStr_norm m1 version, h, createParserStr_norm]

/-- Witness for C6: two modules whose only difference is a duplicated
symbol in one annotation set generate identical bytes. -/
theorem C6_determinism_witness :
    createParserStr
      ⟨[⟨true, .start "" ""
          (Regex.star ⟨["A", "A"], [], [], []⟩ 0
            (Regex.idToken ⟨["A"], [], [], []⟩ 0 "A")) none⟩],
        none, none, none, none⟩ "1.0.0"
    = createParserStr
      ⟨[⟨true, .start "" ""
          (Regex.star ⟨["A"], [], [], []⟩ 0
            (Regex.idToken ⟨["A", "A"], [], [], []⟩ 0 "A")) none⟩],
        none, none, none, none⟩ "1.0.0" :=
  C6_determinism _ _ "1.0.0" (by
    simp [normModule, normElement, normRegex, normRegexList,
      normRegexOpt, normAnn]
    decide)

/-- C7: for every set S of terminal symbols, the renderer traverses
the canonical ordered duplicate-free listing of S (sorted, nodup, same
membership); for nonempty S the match pattern is the disjunction of
one `pattern_` invocation per symbol in that order and the diagnostic
list one `default_` value per symbol in the same order; for empty S
both collapse to the end-of-input entry alone. -/
theorem C7_set_renderer (s : List Sym) (level : Nat) :
    (btree s = [] ↔ s = [])
    ∧ List.Sorted (fun a b => a ≤ b) (btree s)
    ∧ (btree s).Nodup
    ∧ (∀ x, x ∈ btree s ↔ x ∈ s)
    ∧ (btree s ≠ [] →
        setPattern s level =
          String.intercalate ("\n" ++ pad level ++ "| ")
            ((btree s).map (fun n => "pattern_" ++ n ++ "!()"))
        ∧ setError s level =
          String.intercalate (",\n" ++ pad level)
            ((btree s).map (fun n => "default_" ++ n ++ "!()")))
    ∧ (s = [] → setPattern s level = "pattern_EOF!()"
        ∧ setError s level = "default_EOF!()") := by
  refine ⟨btree_eq_nil_iff, btree_sorted s, btree_nodup s,
    fun x => mem_btree, ?_, ?_⟩
  · intro h
    have he : (btree s).isEmpty = false := by
      cases hb : btree s with
      | nil => exact absurd hb h
      | cons a t => rfl
    exact ⟨by simp [setPattern, he], by simp [setError, he]⟩
  · intro h
    subst h
    exact ⟨by simp [setPattern, btree_nil], by simp [setError, btree_nil]⟩

/-- Witness for C7: the singleton set renders one entry, the empty set
the end-of-input entries. -/
theorem C7_set_renderer_witness :
    setPattern ["b"] 1 =
      String.intercalate ("\n" ++ pad 1 ++ "| ")
        ((btree ["b"]).map (fun n => "pattern_" ++ n ++ "!()"))
    ∧ setPattern [] 1 = "pattern_EOF!()"
    ∧ setError [] 1 = "default_EOF!()" :=
  ⟨((C7_set_renderer ["b"] 1).2.2.2.2.1 (by decide)).1,
   ((C7_set_renderer [] 1).2.2.2.2.2 rfl).1,
   ((C7_set_renderer [] 1).2.2.2.2.2 rfl).2⟩

/-- C8: a `Start` or `Rule` element with `used = false` emits no chunk
at all, regardless of its body; a used `Start` or `Rule` element emits
exactly one routine header. -/
theorem C8_liveness_elision (u : Bool) (k : ElementKind)
    (cp ca et : String) :
    (u = false → outputElementChunks ⟨u, k⟩ cp ca et = [])
    ∧ (u = true →
      (∀ ret pars regex act, k = .start ret pars regex act →
        (outputElementChunks ⟨u, k⟩ cp ca et).countP Chunk.isHeader = 1)
      ∧ (∀ nm ret pars regex act, k = .rule nm ret pars regex act →
        (outputElementChunks ⟨u, k⟩ cp ca et).countP Chunk.isHeader = 1)) := by
  refine ⟨?_, ?_⟩
  · intro h
    subst h
    simp [outputElementChunks]
  · intro h
    subst h
    constructor
    · intro ret pars regex act hk
      subst hk
      cases act <;>
        simp [outputElementChunks, List.countP_append, List.countP_cons,
          Chunk.isHeader, outputRegexChunks_no_header]
    · intro nm ret pars regex act hk
      subst hk
      cases act <;>
        simp [outputElementChunks, List.countP_append, List.countP_cons,
          Chunk.isHeader, outputRegexChunks_no_header]

/-- Witness for C8: an unused rule with a nonempty body emits nothing;
the same rule marked used emits exactly one routine header. -/
theorem C8_liveness_elision_witness :
    outputElementChunks
      ⟨false, .rule "r" "" ""
        (Regex.idToken ⟨["A"], [], [], []⟩ 0 "A") none⟩ "" "" "" = []
    ∧ (outputElementChunks
        ⟨true, .rule "r" "" ""
          (Regex.idToken ⟨["A"], [], [], []⟩ 0 "A") none⟩ "" "" "").countP
        Chunk.isHeader = 1 :=
  ⟨(C8_liveness_elision false
      (.rule "r" "" "" (Regex.idToken ⟨["A"], [], [], []⟩ 0 "A") none)
      "" "" "").1 rfl,
   ((C8_liveness_elision true
      (.rule "r" "" "" (Regex.idToken ⟨["A"], [], [], []⟩ 0 "A") none)
      "" "" "").2 rfl).2 "r" "" ""
      (Regex.idToken ⟨["A"], [], [], []⟩ 0 "A") none rfl⟩

/-- C9: an `Action` or `ErrorHandler` regex node whose element
reference is unresolved emits exactly one placeholder chunk — never
nothing — whose text is the `todo!` invocation (a call that fails at
run time of the generated parser) carrying the node's ordinal and
source position inside the written text; a resolved reference splices
the referenced code at that point, the code appearing verbatim inside
the pre-indentation text whenever it is multi-line. -/
theorem C9_action_placeholder (a : Ann) (pos val : Nat)
    (args : String) (level : Nat) :
    (outputRegexChunks (.action a pos val none) args level =
      [Chunk.todoAction val pos
        (indentStr (spliceText "semantic action" val
          (todoCodeText "semantic action" val pos)) (level - 1))])
    ∧ (∃ s1 s2 s3,
        spliceText "semantic action" val
          (todoCodeText "semantic action" val pos)
          = s1 ++ toString val ++ s2 ++ toString pos ++ s3)
    ∧ (outputRegexChunks (.errHandler a pos val none) args level =
      [Chunk.todoHandler val pos
        (indentStr (spliceText "error handler" val
          (todoCodeText "error handler" val pos)) (level - 1))])
    ∧ (∃ s1 s2 s3,
        spliceText "error handler" val
          (todoCodeText "error handler" val pos)
          = s1 ++ toString val ++ s2 ++ toString pos ++ s3)
    ∧ (∀ code,
        outputRegexChunks (.action a pos val (some code)) args level =
          [Chunk.actionCode val code
            (indentStr (spliceText "semantic action" val
              (adjustCode code)) (level - 1))])
    ∧ (∀ code, code.data.contains (Char.ofNat 10) = true →
        ∃ s1 s2, spliceText "semantic action" val (adjustCode code)
          = s1 ++ code ++ s2)
    ∧ (∀ code,
        outputRegexChunks (.errHandler a pos val (some code)) args level =
          [Chunk.handlerCode val code
            (indentStr (spliceText "error handler" val
              (adjustCode code)) (level - 1))]) := by
  refine ⟨by simp [outputRegexChunks], ?_, by simp [outputRegexChunks],
    ?_, fun code => by simp [outputRegexChunks], ?_,
    fun code => by simp [outputRegexChunks]⟩
  · refine ⟨"    // semantic action ",
      "\n" ++ ("    todo!(\"semantic action " ++ (toString val ++ " at ")),
      "\");\n\n", ?_⟩
    simp [spliceText, todoCodeText, String.append_assoc]
  · refine ⟨"    // error handler ",
      "\n" ++ ("    todo!(\"error handler " ++ (toString val ++ " at ")),
      "\");\n\n", ?_⟩
    simp [spliceText, todoCodeText, String.append_assoc]
  · intro code h
    have hmem : Char.ofNat 10 ∈ code.data := by
      simpa using h
    refine ⟨"    // semantic action " ++ toString val ++ "\n", "\n", ?_⟩
    simp [spliceText, adjustCode, hmem, String.append_assoc]

/-- Witness for C9: the unresolved action with ordinal 1 at position 7
emits the `todo!` placeholder chunk; the resolved multi-line action
carries its code verbatim in the pre-indentation text. -/
theorem C9_action_placeholder_witness :
    outputRegexChunks (.action ⟨[], [], [], []⟩ 7 1 none) "" 2 =
      [Chunk.todoAction 1 7
        (indentStr (spliceText "semantic action" 1
          (todoCodeText "semantic action" 1 7)) 1)]
    ∧ ∃ s1 s2, spliceText "semantic action" 1 (adjustCode "a;\nb;")
        = s1 ++ "a;\nb;" ++ s2 :=
  ⟨(C9_action_placeholder ⟨[], [], [], []⟩ 7 1 "" 2).1,
   (C9_action_placeholder ⟨[], [], [], []⟩ 7 1 "" 2).2.2.2.2.2.1
     "a;\nb;" (by decide)⟩

theorem defaultWrites_eq_filter (es : List Element) :
    defaultWrites es =
      (patternWrites es).filter (fun q => !underscoreFirst q.1) := by
  unfold defaultWrites patternWrites
  induction es with
  | nil => rfl
  | cons e rest ih =>
    rw [List.filterMap_cons, List.filterMap_cons]
    obtain ⟨u2, k2⟩ := e
    cases k2
    case token n2 t2 s2 =>
      by_cases hn : underscoreFirst n2 = true <;>
        simp [hn, List.filter_cons, ih]
    all_goals simp [List.filter_cons, ih]

theorem consumeWrites_eq_filter (es : List Element) :
    consumeWrites es =
      (patternWrites es).filter (fun q => !underscoreFirst q.1) := by
  unfold consumeWrites patternWrites
  induction es with
  | nil => rfl
  | cons e rest ih =>
    rw [List.filterMap_cons, List.filterMap_cons]
    obtain ⟨u2, k2⟩ := e
    cases k2
    case token n2 t2 s2 =>
      by_cases hn : underscoreFirst n2 = true <;>
        simp [hn, List.filter_cons, ih]
    all_goals simp [List.filter_cons, ih]

/-- C10: every `Token` element gets a `pattern_` macro and a
`TokenKind` variant; a token whose name begins with an underscore gets
no `default_` macro and no `consume_` macro (no write of either
section carries its name), while any other token gets all four
artifacts. -/
theorem C10_underscore_tokens (m : Module) (u : Bool)
    (name ty sym : String)
    (hmem : (⟨u, .token name ty sym⟩ : Element) ∈ m.elements) :
    ((name, ty) ∈ patternWrites m.elements)
    ∧ ((name, ty) ∈ tokenVariantWrites m.elements)
    ∧ (underscoreFirst name = true →
        (∀ q ∈ defaultWrites m.elements, q.1 ≠ name)
        ∧ (∀ q ∈ consumeWrites m.elements, q.1 ≠ name))
    ∧ (underscoreFirst name = false →
        (name, ty) ∈ defaultWrites m.elements
        ∧ (name, ty) ∈ consumeWrites m.elements) := by
  have hpat : (name, ty) ∈ patternWrites m.elements :=
    List.mem_filterMap.mpr ⟨_, hmem, rfl⟩
  refine ⟨hpat, List.mem_filterMap.mpr ⟨_, hmem, rfl⟩, ?_, ?_⟩
  · intro hu
    constructor
    · intro q hq
      rw [defaultWrites_eq_filter] at hq
      have := (List.mem_filter.mp hq).2
      intro hqe
      rw [hqe, hu] at this
      exact absurd this (by decide)
    · intro q hq
      rw [consumeWrites_eq_filter] at hq
      have := (List.mem_filter.mp hq).2
      intro hqe
      rw [hqe, hu] at this
      exact absurd this (by decide)
  · intro hu
    constructor
    · rw [defaultWrites_eq_filter]
      exact List.mem_filter.mpr ⟨hpat, by simp [hu]⟩
    · rw [consumeWrites_eq_filter]
      exact List.mem_filter.mpr ⟨hpat, by simp [hu]⟩

/-- Witness for C10: in a module with an underscore token `_w` and a
plain token `A`, the underscore token appears among the pattern and
variant writes but in no default or consume write, and the plain token
appears in all four. -/
theorem C10_underscore_tokens_witness :
    (("_w", "") ∈ patternWrites
      [⟨true, .token "_w" "" ""⟩, ⟨true, .token "A" "" ""⟩])
    ∧ (∀ q ∈ defaultWrites
        [⟨true, .token "_w" "" ""⟩, ⟨true, .token "A" "" ""⟩],
        q.1 ≠ "_w")
    ∧ (("A", "") ∈ consumeWrites
        [⟨true, .token "_w" "" ""⟩, ⟨true, .token "A" "" ""⟩]) := by
  have h1 := C10_underscore_tokens
    ⟨[⟨true, .token "_w" "" ""⟩, ⟨true, .token "A" "" ""⟩],
      none, none, none, none⟩ true "_w" "" ""
    (by simp)
  have h2 := C10_underscore_tokens
    ⟨[⟨true, .token "_w" "" ""⟩, ⟨true, .token "A" "" ""⟩],
      none, none, none, none⟩ true "A" "" ""
    (by simp)
  exact ⟨h1.1, (h1.2.2.1 (by decide)).1, (h2.2.2.2 (by decide)).2⟩

end Lelwel
